import Mathlib

/-!
Verification development for the OpenAI provider adapter (`openai.go`).

The Go source is embedded shallowly:
* machine floats in `calculateBackoffDelay` are evaluated exactly over `ℚ`
  (the inputs involved are small integers and tenths, all exactly
  representable), and the final `time.Duration` conversion is the floor;
* a Go `error` value is embedded as `Option String` (its text), `nil` being
  `none`;
* the SSE byte stream is embedded as a list of already-scanned lines, each
  line categorised exactly as the decode loop categorises it (blank line,
  non-data line, the `data: [DONE]` sentinel, or a `data: ` payload whose
  JSON decoding either failed, `none`, or produced a chunk, `some c`);
* the caller-supplied chunk callback is a function `AIMessage → Bool`
  (`false` meaning the callback returned a non-nil error), and the decoder
  state additionally records, in `emitted`, the messages passed to the
  callback, in call order;
* `map[int]*ai.ToolCall` is an association list with unique keys, inserted
  in first-seen order.
-/

namespace AigenticOpenAI

/-! ## String containment, mirroring strings.Contains -/

def listStartsWith : List Char → List Char → Bool
  | _, [] => true
  | [], _ :: _ => false
  | a :: l, b :: p => a == b && listStartsWith l p

def listContainsSub (pat : List Char) : List Char → Bool
  | [] => listStartsWith [] pat
  | c :: rest => listStartsWith (c :: rest) pat || listContainsSub pat rest

def strContains (s pat : String) : Bool :=
  listContainsSub pat.toList s.toList

/-! ## Retry classification (isRetryableError, openai.go lines 153-177) -/

def isRetryableError : Option String → Bool
  | none => false
  | some errStr =>
    if strContains errStr "status: 502" || strContains errStr "status: 503" ||
       strContains errStr "status: 504" || strContains errStr "status: 429" then
      true
    else if strContains errStr "connection refused" || strContains errStr "timeout" ||
            strContains errStr "network" || strContains errStr "temporary" then
      true
    else
      false

theorem isRetryableError_some (e : String) :
    isRetryableError (some e) =
      (strContains e "status: 502" || strContains e "status: 503" ||
       strContains e "status: 504" || strContains e "status: 429" ||
       strContains e "connection refused" || strContains e "timeout" ||
       strContains e "network" || strContains e "temporary") := by
  unfold isRetryableError
  cases h1 : (strContains e "status: 502" || strContains e "status: 503" ||
      strContains e "status: 504" || strContains e "status: 429") <;>
    cases h2 : (strContains e "connection refused" || strContains e "timeout" ||
        strContains e "network" || strContains e "temporary") <;>
    simp_all

/-! ## Backoff (calculateBackoffDelay, openai.go lines 180-194)

Constants from openai.go lines 129-134, in nanoseconds (Go time.Duration). -/

def baseDelay : ℚ := 1000000000
def maxDelay : ℚ := 30000000000
def jitterFactor : ℚ := 1 / 10
def maxRetries : ℕ := 5

/-- The float64 value computed by calculateBackoffDelay before the final
time.Duration conversion; `r` is the value drawn from rand.Float64(),
which lies in [0, 1). -/
def backoffRaw (attempt : ℕ) (r : ℚ) : ℚ :=
  let delay := baseDelay * 2 ^ attempt
  let delay := if delay > maxDelay then maxDelay else delay
  delay + delay * jitterFactor * r

/-- calculateBackoffDelay: the raw value truncated to integer nanoseconds
(`time.Duration(delay)` truncates; the value is nonnegative, so this is
the floor). -/
def calculateBackoffDelay (attempt : ℕ) (r : ℚ) : ℤ :=
  ⌊backoffRaw attempt r⌋

/-- The exponential delay capped at maxDelay, before jitter. -/
def cappedDelay (attempt : ℕ) : ℚ :=
  min (baseDelay * 2 ^ attempt) maxDelay

theorem backoffRaw_eq (n : ℕ) (r : ℚ) :
    backoffRaw n r = cappedDelay n + cappedDelay n * jitterFactor * r := by
  unfold backoffRaw cappedDelay
  by_cases h : baseDelay * 2 ^ n > maxDelay
  · simp only [h, if_true]
    rw [min_eq_right (le_of_lt h)]
  · simp only [h, if_false]
    rw [min_eq_left (not_lt.mp h)]

theorem cappedDelay_nonneg (n : ℕ) : 0 ≤ cappedDelay n := by
  unfold cappedDelay baseDelay maxDelay
  positivity

theorem cappedDelay_int (n : ℕ) :
    cappedDelay n = ((min (1000000000 * 2 ^ n) 30000000000 : ℤ) : ℚ) := by
  unfold cappedDelay baseDelay maxDelay
  push_cast
  norm_num

/-! ## Retry loop (openaiGenerateWithRetry, openai.go lines 197-245)

An attempt either succeeds (`f attempt = none`) or fails with an error text
(`some e`).  The select between ctx.Done() and time.After(delay) in the
backoff sleep after attempt n is embedded as an oracle `cancel n`: `some
reason` when the cancellation signal fires before the delay expires (in
which case its branch is taken), `none` when the timer wins. -/

inductive RetryOutcome where
  | ok
  | nonRetryable (e : String)
  | cancelled (e : String)
  | exhausted (e : String)
  deriving DecidableEq

/-- The retry loop from attempt `a` with `r` further attempts allowed after
the current one (`r = maxRetries - a` at the top-level entry). -/
def retryGo (f : ℕ → Option String) (cancel : ℕ → Option String) :
    ℕ → ℕ → RetryOutcome
  | 0, attempt =>
    match f attempt with
    | none => .ok
    | some e =>
      if isRetryableError (some e) then
        .exhausted ("failed to generate after " ++ toString (maxRetries + 1) ++
          " attempts. Last error: " ++ e)
      else
        .nonRetryable ("failed to generate (non-retryable): " ++ e)
  | r + 1, attempt =>
    match f attempt with
    | none => .ok
    | some e =>
      if isRetryableError (some e) then
        match cancel attempt with
        | some reason => .cancelled ("context cancelled during retry: " ++ reason)
        | none => retryGo f cancel r (attempt + 1)
      else
        .nonRetryable ("failed to generate (non-retryable): " ++ e)

def openaiGenerateWithRetry (f : ℕ → Option String)
    (cancel : ℕ → Option String) : RetryOutcome :=
  retryGo f cancel maxRetries 0

theorem retryGo_cancelled (f : ℕ → Option String) (cancel : ℕ → Option String)
    (reason : String) :
    ∀ n r a, n < r →
      (∀ k, k ≤ n → ∃ e, f (a + k) = some e ∧ isRetryableError (some e) = true) →
      (∀ k, k < n → cancel (a + k) = none) →
      cancel (a + n) = some reason →
      retryGo f cancel r a = .cancelled ("context cancelled during retry: " ++ reason) := by
  intro n
  induction n with
  | zero =>
    intro r a hr hf hc hcan
    obtain ⟨r', rfl⟩ := Nat.exists_eq_succ_of_ne_zero (Nat.pos_iff_ne_zero.mp hr)
    obtain ⟨e, hfe, hre⟩ := hf 0 (Nat.le_refl 0)
    rw [Nat.add_zero] at hfe hcan
    simp [retryGo, hfe, hre, hcan]
  | succ n ih =>
    intro r a hr hf hc hcan
    obtain ⟨r', rfl⟩ := Nat.exists_eq_succ_of_ne_zero (Nat.pos_iff_ne_zero.mp (Nat.lt_of_le_of_lt (Nat.zero_le _) hr))
    obtain ⟨e, hfe, hre⟩ := hf 0 (Nat.zero_le _)
    rw [Nat.add_zero] at hfe
    have hc0 : cancel a = none := by
      have := hc 0 (Nat.succ_pos n)
      rwa [Nat.add_zero] at this
    simp only [retryGo, hfe, hre, if_true, hc0]
    apply ih r' (a + 1) (Nat.lt_of_succ_lt_succ hr)
    · intro k hk
      have := hf (k + 1) (Nat.succ_le_succ hk)
      rwa [show a + (k + 1) = a + 1 + k by omega] at this
    · intro k hk
      have := hc (k + 1) (Nat.succ_lt_succ hk)
      rwa [show a + (k + 1) = a + 1 + k by omega] at this
    · rwa [show a + (n + 1) = a + 1 + n by omega] at hcan

/-! ## Claim theorems: retry controller -/

/-- Claim C5: for every attempt number n and every jitter draw r in [0,1],
the computed backoff delay equals base * 2^n capped at the maximum delay,
plus a random jitter of at most 10 percent of that capped value; attempt 0
lies between base and 1.1*base, attempt 2 is 4x base plus jitter, and
attempt 10 is the maximum delay plus at most 10 percent jitter. -/
theorem backoff_delay_bounds (n : ℕ) (r : ℚ) (h0 : 0 ≤ r) (h1 : r ≤ 1) :
    backoffRaw n r = cappedDelay n * (1 + jitterFactor * r) ∧
    cappedDelay n ≤ (calculateBackoffDelay n r : ℚ) ∧
    (calculateBackoffDelay n r : ℚ) ≤ cappedDelay n * (11 / 10) ∧
    cappedDelay 0 = baseDelay ∧
    cappedDelay 2 = 4 * baseDelay ∧
    cappedDelay 10 = maxDelay := by
  have hnn := cappedDelay_nonneg n
  have heq : backoffRaw n r = cappedDelay n * (1 + jitterFactor * r) := by
    rw [backoffRaw_eq]; ring
  have hjit : 0 ≤ cappedDelay n * jitterFactor * r := by
    unfold jitterFactor; positivity
  refine ⟨heq, ?_, ?_, ?_, ?_, ?_⟩
  · rw [cappedDelay_int]
    unfold calculateBackoffDelay
    apply Int.cast_le.mpr
    apply Int.le_floor.mpr
    rw [← cappedDelay_int, backoffRaw_eq]
    linarith
  · calc (calculateBackoffDelay n r : ℚ) ≤ backoffRaw n r := Int.floor_le _
      _ = cappedDelay n * (1 + jitterFactor * r) := heq
      _ ≤ cappedDelay n * (11 / 10) := by
          apply mul_le_mul_of_nonneg_left ?_ hnn
          unfold jitterFactor
          linarith
  · unfold cappedDelay baseDelay maxDelay; norm_num
  · unfold cappedDelay baseDelay maxDelay; norm_num
  · unfold cappedDelay baseDelay maxDelay; norm_num

theorem backoff_delay_bounds_witness :
    (0 ≤ (1 / 2 : ℚ)) ∧ ((1 / 2 : ℚ) ≤ 1) ∧
      (backoffRaw 3 (1 / 2) = cappedDelay 3 * (1 + jitterFactor * (1 / 2)) ∧
       cappedDelay 3 ≤ (calculateBackoffDelay 3 (1 / 2) : ℚ) ∧
       (calculateBackoffDelay 3 (1 / 2) : ℚ) ≤ cappedDelay 3 * (11 / 10) ∧
       cappedDelay 0 = baseDelay ∧
       cappedDelay 2 = 4 * baseDelay ∧
       cappedDelay 10 = maxDelay) :=
  ⟨by norm_num, by norm_num, backoff_delay_bounds 3 (1 / 2) (by norm_num) (by norm_num)⟩

/-- Claim C6, counterexample: an error whose text indicates status 400 but
also contains "timeout" is classified retryable, so the claim's clause
"returns not-retryable for errors indicating status 400 or 401" fails on
this input. -/
theorem retry_classifier_counterexample :
    strContains "status: 400 Bad Request: upstream timeout" "status: 400" = true ∧
    isRetryableError (some "status: 400 Bad Request: upstream timeout") = true := by
  decide

/-- Claim C6, amended: the classifier returns retryable for every error
whose text contains one of the eight retryable substrings; it returns
not-retryable for a nil error and for the plain status-400 and status-401
errors (whose text contains none of the retryable substrings). -/
theorem retry_classifier_amended (e : String)
    (h : strContains e "status: 502" = true ∨ strContains e "status: 503" = true ∨
         strContains e "status: 504" = true ∨ strContains e "status: 429" = true ∨
         strContains e "connection refused" = true ∨ strContains e "timeout" = true ∨
         strContains e "network" = true ∨ strContains e "temporary" = true) :
    isRetryableError (some e) = true ∧
    isRetryableError none = false ∧
    isRetryableError (some "status: 400 Bad Request, code: 400") = false ∧
    isRetryableError (some "status: 401 Unauthorized, code: 401") = false := by
  refine ⟨?_, rfl, by decide, by decide⟩
  rw [isRetryableError_some]
  rcases h with h | h | h | h | h | h | h | h <;> simp [h]

theorem retry_classifier_amended_witness :
    (strContains "timeout" "status: 502" = true ∨ strContains "timeout" "status: 503" = true ∨
     strContains "timeout" "status: 504" = true ∨ strContains "timeout" "status: 429" = true ∨
     strContains "timeout" "connection refused" = true ∨ strContains "timeout" "timeout" = true ∨
     strContains "timeout" "network" = true ∨ strContains "timeout" "temporary" = true) ∧
      (isRetryableError (some "timeout") = true ∧
       isRetryableError none = false ∧
       isRetryableError (some "status: 400 Bad Request, code: 400") = false ∧
       isRetryableError (some "status: 401 Unauthorized, code: 401") = false) :=
  ⟨by decide, retry_classifier_amended "timeout" (by decide)⟩

/-- Claim C10: retry classification is a substring search over the error
text, not a function of a parsed status code: an error naming status 400
whose body also contains "temporary" is classified retryable, while the
same status-400 text without a retryable substring is not. -/
theorem substring_classification_retries_permanent_status :
    strContains "status: 400 Bad Request: temporary failure" "status: 400" = true ∧
    isRetryableError (some "status: 400 Bad Request: temporary failure") = true ∧
    isRetryableError (some "status: 400 Bad Request") = false := by
  decide

/-- Claim C8: if the cancellation signal fires during the backoff sleep
that follows attempt n (all attempts up to n having failed retryably, no
earlier sleep having been cancelled), the retry loop returns the error
carrying the cancellation reason and makes no further attempt. -/
theorem cancellation_aborts_retry_loop (f : ℕ → Option String)
    (cancel : ℕ → Option String) (n : ℕ) (reason : String)
    (hn : n < maxRetries)
    (hf : ∀ k, k ≤ n → ∃ e, f k = some e ∧ isRetryableError (some e) = true)
    (hc : ∀ k, k < n → cancel k = none)
    (hcan : cancel n = some reason) :
    openaiGenerateWithRetry f cancel =
      .cancelled ("context cancelled during retry: " ++ reason) := by
  unfold openaiGenerateWithRetry
  apply retryGo_cancelled f cancel reason n maxRetries 0 hn
  · intro k hk; simpa using hf k hk
  · intro k hk; simpa using hc k hk
  · simpa using hcan

def retryAttemptAlwaysTimeout : ℕ → Option String := fun _ => some "timeout"

def cancelDuringFirstSleep : ℕ → Option String :=
  fun k => if k = 0 then some "context deadline exceeded" else none

theorem cancellation_aborts_retry_loop_witness :
    (0 < maxRetries) ∧
      openaiGenerateWithRetry retryAttemptAlwaysTimeout cancelDuringFirstSleep =
        .cancelled ("context cancelled during retry: " ++ "context deadline exceeded") :=
  ⟨by decide,
   cancellation_aborts_retry_loop retryAttemptAlwaysTimeout cancelDuringFirstSleep 0
     "context deadline exceeded" (by decide)
     (fun _ _ => ⟨"timeout", rfl, by decide⟩)
     (fun k hk => absurd hk (Nat.not_lt_zero k))
     rfl⟩

/-! ## Streaming decoder data model (openai.go lines 36-51, 72-80;
ai.ToolCall / ai.AIMessage / ai.Response as used by parseSSEResponse) -/

/-- ai.ToolCall as populated by the streaming decoder. -/
structure ToolCall where
  id : String := ""
  type : String := ""
  name : String := ""
  args : String := ""
  result : String := ""
  deriving DecidableEq

/-- A single element of delta.tool_calls in a stream chunk
(OpenAIToolCall: index, id, type, function.name, function.arguments). -/
structure DeltaToolCall where
  index : Int := 0
  id : String := ""
  type : String := ""
  name : String := ""
  args : String := ""
  deriving DecidableEq

/-- choices[0] of a stream chunk: delta.role, delta.content,
delta.tool_calls, finish_reason. -/
structure Choice where
  role : String := ""
  content : String := ""
  toolCalls : List DeltaToolCall := []
  finishReason : String := ""
  deriving DecidableEq

/-- OpenAIChatStreamResponse: top-level metadata plus choices. -/
structure StreamChunk where
  id : String := ""
  created : Int := 0
  model : String := ""
  choices : List Choice := []
  deriving DecidableEq

/-- The response metadata the decoder sets on the final message. -/
structure Response where
  id : String := ""
  object : String := ""
  created : Int := 0
  model : String := ""
  deriving DecidableEq

/-- ai.AIMessage, restricted to the fields parseSSEResponse touches. -/
structure AIMessage where
  role : String := ""
  content : String := ""
  think : String := ""
  toolCalls : List ToolCall := []
  response : Response := {}
  deriving DecidableEq

/-- One scanned line of the SSE body, categorised exactly as the decode
loop categorises it: a blank line, a line without the "data: " marker, the
"data: [DONE]" sentinel, or a data line whose JSON payload either failed to
decode (none) or produced a chunk (some). -/
inductive SSELine where
  | blank
  | nonData
  | done
  | dataLine (chunk : Option StreamChunk)
  deriving DecidableEq

/-! ## Tool-call slot map (map[int]*ai.ToolCall as an association list) -/

def mapFind : List (Int × ToolCall) → Int → Option ToolCall
  | [], _ => none
  | (k, tc) :: rest, idx => if k == idx then some tc else mapFind rest idx

def mapAppendArgs : List (Int × ToolCall) → Int → String → List (Int × ToolCall)
  | [], _, _ => []
  | (k, tc) :: rest, idx, s =>
    if k == idx then (k, { tc with args := tc.args ++ s }) :: mapAppendArgs rest idx s
    else (k, tc) :: mapAppendArgs rest idx s

/-- openai.go lines 586-601: the first delta for a slot creates the entry
with its id/type/name; a non-empty argument fragment is appended to the
slot's buffer. -/
def processDeltaToolCall (m : List (Int × ToolCall)) (d : DeltaToolCall) :
    List (Int × ToolCall) :=
  let m :=
    match mapFind m d.index with
    | none => m ++ [(d.index, { id := d.id, type := d.type, name := d.name })]
    | some _ => m
  if d.args == "" then m else mapAppendArgs m d.index d.args

def foldDeltas (m : List (Int × ToolCall)) (ds : List DeltaToolCall) :
    List (Int × ToolCall) :=
  ds.foldl processDeltaToolCall m

/-- openai.go lines 610-615 and 642-647: convert the slot map to a slice by
probing indices 0 .. len(map)-1. -/
def toolCallsSlice (m : List (Int × ToolCall)) : List ToolCall :=
  (List.range m.length).filterMap fun i => mapFind m (Int.ofNat i)

/-! ## The decode loop state and step -/

/-- The decoder's local accumulation state; `emitted` additionally records
every message passed to the chunk callback, in call order. -/
structure SSEState where
  role : String := ""
  content : String := ""
  toolCallsMap : List (Int × ToolCall) := []
  responseID : String := ""
  responseCreated : Int := 0
  responseModel : String := ""
  emitted : List AIMessage := []
  deriving DecidableEq

/-- openai.go lines 580-582: accumulate a non-empty content fragment. -/
def applyContent (st : SSEState) (choice : Choice) : SSEState :=
  if choice.content == "" then st
  else { st with content := st.content ++ choice.content }

/-- openai.go lines 585-602: fold the delta tool calls into the slot map. -/
def applyToolCalls (st : SSEState) (choice : Choice) : SSEState :=
  if choice.toolCalls.isEmpty then st
  else { st with toolCallsMap := foldDeltas st.toolCallsMap choice.toolCalls }

/-- openai.go lines 605-607: set the role if provided and not yet set. -/
def applyRole (st : SSEState) (choice : Choice) : SSEState :=
  if choice.role != "" && (st.role == "") then { st with role := choice.role } else st

/-- openai.go lines 579-607: accumulate content, fold the tool-call
deltas, set the role if not yet set. -/
def processChunkChoice (st : SSEState) (choice : Choice) : SSEState :=
  applyRole (applyToolCalls (applyContent st choice) choice) choice

/-- openai.go lines 617-622: the message handed to the chunk callback. -/
def mkProgressMsg (st : SSEState) : AIMessage :=
  { role := st.role, content := st.content,
    toolCalls := toolCallsSlice st.toolCallsMap }

inductive StepOut where
  | cont (st : SSEState)
  | stop (res : Option SSEState)

/-- openai.go lines 568-573: response metadata is stored from the first
chunk (as long as no non-empty id has been stored yet). -/
def metaCapture (chunk : StreamChunk) (st : SSEState) : SSEState :=
  if st.responseID == "" then
    { st with responseID := chunk.id, responseCreated := chunk.created,
              responseModel := chunk.model }
  else st

/-- openai.go lines 568-633: metadata capture, chunk processing, callback
invocation, finish-reason check, for one successfully decoded data line. -/
def processDataChunk (cb : AIMessage → Bool) (chunk : StreamChunk)
    (st : SSEState) : StepOut :=
  let st := metaCapture chunk st
  match chunk.choices with
  | [] => .cont st
  | choice :: _ =>
    let st := processChunkChoice st choice
    let pm := mkProgressMsg st
    let st := { st with emitted := st.emitted ++ [pm] }
    if cb pm then
      if choice.finishReason == "" then .cont st else .stop (some st)
    else .stop none

/-- openai.go lines 539-634: the scan loop.  `none` is the early return
taken when the chunk callback reports an error. -/
def parseSSELoop (cb : AIMessage → Bool) : List SSELine → SSEState → Option SSEState
  | [], st => some st
  | .blank :: rest, st => parseSSELoop cb rest st
  | .nonData :: rest, st => parseSSELoop cb rest st
  | .done :: _, st => some st
  | .dataLine none :: rest, st => parseSSELoop cb rest st
  | .dataLine (some chunk) :: rest, st =>
    match processDataChunk cb chunk st with
    | .cont st => parseSSELoop cb rest st
    | .stop res => res

/-- openai.go lines 640-658: assemble the final message. -/
def finalizeSSE (st : SSEState) : AIMessage :=
  { role := st.role, content := st.content,
    toolCalls := toolCallsSlice st.toolCallsMap,
    response := { id := st.responseID, object := "chat.completion",
                  created := st.responseCreated, model := st.responseModel } }

def parseSSEResponse (cb : AIMessage → Bool) (lines : List SSELine) :
    Option AIMessage :=
  (parseSSELoop cb lines {}).map finalizeSSE

/-- A chunk callback that never reports an error. -/
def cbAlwaysOk : AIMessage → Bool := fun _ => true

/-! ## Stream constructors and spec-side accumulation functions -/

def mkChunk (c : Choice) : StreamChunk :=
  { id := "resp-1", created := 1, model := "m", choices := [c] }

/-- A well-formed stream: one data line per choice, terminated by the
"data: [DONE]" sentinel. -/
def mkStream (cs : List Choice) : List SSELine :=
  (cs.map fun c => SSELine.dataLine (some (mkChunk c))) ++ [SSELine.done]

def strJoin : List String → String
  | [] => ""
  | s :: rest => s ++ strJoin rest

def allDeltas : List Choice → List DeltaToolCall
  | [] => []
  | c :: rest => c.toolCalls ++ allDeltas rest

/-- The ordered concatenation of every argument fragment addressed to slot
`idx`. -/
def slotArgs (ds : List DeltaToolCall) (idx : Int) : String :=
  strJoin ((ds.filter fun d => d.index == idx).map fun d => d.args)

/-! ## Slot-map lemmas -/

theorem slotArgs_nil (idx : Int) : slotArgs [] idx = "" := rfl

theorem slotArgs_cons_self (d : DeltaToolCall) (ds : List DeltaToolCall) (idx : Int)
    (h : d.index = idx) : slotArgs (d :: ds) idx = d.args ++ slotArgs ds idx := by
  simp [slotArgs, List.filter_cons, h, strJoin]

theorem slotArgs_cons_other (d : DeltaToolCall) (ds : List DeltaToolCall) (idx : Int)
    (h : d.index ≠ idx) : slotArgs (d :: ds) idx = slotArgs ds idx := by
  simp [slotArgs, List.filter_cons, h]

theorem mapFind_append_self (m : List (Int × ToolCall)) (k : Int) (tc : ToolCall)
    (h : mapFind m k = none) : mapFind (m ++ [(k, tc)]) k = some tc := by
  induction m with
  | nil => simp [mapFind]
  | cons p rest ih =>
    obtain ⟨a, b⟩ := p
    by_cases hak : a = k
    · simp [mapFind, hak] at h
    · simp only [mapFind, List.cons_append, beq_iff_eq, hak, if_false] at h ⊢
      exact ih h

theorem mapFind_append_other (m : List (Int × ToolCall)) (k j : Int) (tc : ToolCall)
    (h : j ≠ k) : mapFind (m ++ [(k, tc)]) j = mapFind m j := by
  induction m with
  | nil => simp [mapFind, Ne.symm h]
  | cons p rest ih =>
    obtain ⟨a, b⟩ := p
    by_cases haj : a = j
    · simp [mapFind, haj]
    · simp only [mapFind, List.cons_append, beq_iff_eq, haj, if_false]
      exact ih

theorem mapFind_mapAppendArgs_self (m : List (Int × ToolCall)) (k : Int) (s : String) :
    mapFind (mapAppendArgs m k s) k =
      (mapFind m k).map fun tc => { tc with args := tc.args ++ s } := by
  induction m with
  | nil => simp [mapFind, mapAppendArgs]
  | cons p rest ih =>
    obtain ⟨a, b⟩ := p
    by_cases hak : a = k
    · simp [mapFind, mapAppendArgs, hak]
    · simp only [mapAppendArgs, beq_iff_eq, hak, if_false, mapFind]
      exact ih

theorem mapFind_mapAppendArgs_other (m : List (Int × ToolCall)) (k j : Int) (s : String)
    (h : j ≠ k) : mapFind (mapAppendArgs m k s) j = mapFind m j := by
  induction m with
  | nil => simp [mapFind, mapAppendArgs]
  | cons p rest ih =>
    obtain ⟨a, b⟩ := p
    by_cases hak : a = k
    · simp only [mapAppendArgs, beq_iff_eq, hak, if_true, mapFind]
      rw [if_neg (fun hh => h (Eq.symm hh)), if_neg (fun hh => h (Eq.symm hh))]
      exact ih
    · simp only [mapAppendArgs, beq_iff_eq, hak, if_false, mapFind]
      by_cases haj : a = j
      · simp [haj]
      · rw [if_neg haj, if_neg haj]
        exact ih

theorem mapFind_processDelta_self (m : List (Int × ToolCall)) (d : DeltaToolCall) :
    mapFind (processDeltaToolCall m d) d.index =
      match mapFind m d.index with
      | some tc => some { tc with args := tc.args ++ d.args }
      | none => some { id := d.id, type := d.type, name := d.name, args := d.args } := by
  unfold processDeltaToolCall
  cases hf : mapFind m d.index with
  | some tc =>
    simp only [hf]
    by_cases hargs : d.args = ""
    · simp only [hargs, beq_self_eq_true, if_true, hf, String.append_empty]
    · rw [if_neg (by simpa using hargs), mapFind_mapAppendArgs_self, hf]
      rfl
  | none =>
    simp only [hf]
    by_cases hargs : d.args = ""
    · rw [if_pos (by simpa using hargs),
        mapFind_append_self m d.index _ hf, hargs]
    · rw [if_neg (by simpa using hargs), mapFind_mapAppendArgs_self,
        mapFind_append_self m d.index _ hf]
      simp [String.empty_append]

theorem mapFind_processDelta_other (m : List (Int × ToolCall)) (d : DeltaToolCall)
    (idx : Int) (h : d.index ≠ idx) :
    mapFind (processDeltaToolCall m d) idx = mapFind m idx := by
  unfold processDeltaToolCall
  cases hf : mapFind m d.index with
  | some tc =>
    simp only [hf]
    by_cases hargs : d.args = ""
    · rw [if_pos (by simpa using hargs)]
    · rw [if_neg (by simpa using hargs), mapFind_mapAppendArgs_other _ _ _ _ (fun hh => h hh.symm)]
  | none =>
    simp only [hf]
    by_cases hargs : d.args = ""
    · rw [if_pos (by simpa using hargs), mapFind_append_other _ _ _ _ (fun hh => h hh.symm)]
    · rw [if_neg (by simpa using hargs), mapFind_mapAppendArgs_other _ _ _ _ (fun hh => h hh.symm),
        mapFind_append_other _ _ _ _ (fun hh => h hh.symm)]

theorem foldDeltas_nil (m : List (Int × ToolCall)) : foldDeltas m [] = m := rfl

theorem foldDeltas_cons (m : List (Int × ToolCall)) (d : DeltaToolCall)
    (ds : List DeltaToolCall) :
    foldDeltas m (d :: ds) = foldDeltas (processDeltaToolCall m d) ds := rfl

theorem foldDeltas_append (m : List (Int × ToolCall)) (ds₁ ds₂ : List DeltaToolCall) :
    foldDeltas m (ds₁ ++ ds₂) = foldDeltas (foldDeltas m ds₁) ds₂ :=
  List.foldl_append _ _ _ _

/-- Argument accumulation over a delta list, existing-slot case. -/
theorem mapFind_foldDeltas_some (ds : List DeltaToolCall) :
    ∀ (m : List (Int × ToolCall)) (idx : Int) (tc : ToolCall),
      mapFind m idx = some tc →
      mapFind (foldDeltas m ds) idx = some { tc with args := tc.args ++ slotArgs ds idx } := by
  induction ds with
  | nil =>
    intro m idx tc h
    rw [foldDeltas_nil, slotArgs_nil, String.append_empty]
    exact h
  | cons d ds ih =>
    intro m idx tc h
    rw [foldDeltas_cons]
    by_cases hidx : d.index = idx
    · have hself := mapFind_processDelta_self m d
      rw [hidx] at hself
      rw [h] at hself
      rw [ih _ _ _ hself, slotArgs_cons_self d ds idx hidx, String.append_assoc]
    · rw [ih _ _ _ (by rw [mapFind_processDelta_other m d idx hidx]; exact h),
        slotArgs_cons_other d ds idx hidx]

/-- Argument accumulation over a delta list, fresh-slot case: the first
delta for the slot supplies id/type/name, and the argument buffer is the
ordered concatenation of every fragment addressed to the slot. -/
theorem mapFind_foldDeltas_none (ds : List DeltaToolCall) :
    ∀ (m : List (Int × ToolCall)) (idx : Int),
      mapFind m idx = none →
      mapFind (foldDeltas m ds) idx =
        (ds.find? fun d => d.index == idx).map fun d =>
          { id := d.id, type := d.type, name := d.name, args := slotArgs ds idx } := by
  induction ds with
  | nil =>
    intro m idx h
    rw [foldDeltas_nil]
    simpa using h
  | cons d ds ih =>
    intro m idx h
    rw [foldDeltas_cons]
    by_cases hidx : d.index = idx
    · have hself := mapFind_processDelta_self m d
      rw [hidx] at hself
      rw [h] at hself
      rw [mapFind_foldDeltas_some ds _ _ _ hself]
      simp only [List.find?_cons, beq_iff_eq, hidx, if_pos rfl]
      rw [slotArgs_cons_self d ds idx hidx]
      simp
    · rw [ih _ _ (by rw [mapFind_processDelta_other m d idx hidx]; exact h),
        slotArgs_cons_other d ds idx hidx]
      have : (List.find? (fun d => d.index == idx) (d :: ds)) =
          List.find? (fun d => d.index == idx) ds := by
        simp [List.find?_cons, hidx]
      rw [this]

/-! ## Decode-step lemmas -/

theorem metaCapture_content (chunk : StreamChunk) (st : SSEState) :
    (metaCapture chunk st).content = st.content := by
  unfold metaCapture; split <;> rfl

theorem metaCapture_map (chunk : StreamChunk) (st : SSEState) :
    (metaCapture chunk st).toolCallsMap = st.toolCallsMap := by
  unfold metaCapture; split <;> rfl

theorem metaCapture_emitted (chunk : StreamChunk) (st : SSEState) :
    (metaCapture chunk st).emitted = st.emitted := by
  unfold metaCapture; split <;> rfl

theorem applyContent_content (st : SSEState) (c : Choice) :
    (applyContent st c).content = st.content ++ c.content := by
  unfold applyContent
  split <;> simp_all [String.append_empty]

theorem applyContent_map (st : SSEState) (c : Choice) :
    (applyContent st c).toolCallsMap = st.toolCallsMap := by
  unfold applyContent; split <;> rfl

theorem applyContent_emitted (st : SSEState) (c : Choice) :
    (applyContent st c).emitted = st.emitted := by
  unfold applyContent; split <;> rfl

theorem applyToolCalls_content (st : SSEState) (c : Choice) :
    (applyToolCalls st c).content = st.content := by
  unfold applyToolCalls; split <;> rfl

theorem applyToolCalls_map (st : SSEState) (c : Choice) :
    (applyToolCalls st c).toolCallsMap = foldDeltas st.toolCallsMap c.toolCalls := by
  unfold applyToolCalls
  split <;> simp_all [List.isEmpty_iff, foldDeltas_nil]

theorem applyToolCalls_emitted (st : SSEState) (c : Choice) :
    (applyToolCalls st c).emitted = st.emitted := by
  unfold applyToolCalls; split <;> rfl

theorem applyRole_content (st : SSEState) (c : Choice) :
    (applyRole st c).content = st.content := by
  unfold applyRole; split <;> rfl

theorem applyRole_map (st : SSEState) (c : Choice) :
    (applyRole st c).toolCallsMap = st.toolCallsMap := by
  unfold applyRole; split <;> rfl

theorem applyRole_emitted (st : SSEState) (c : Choice) :
    (applyRole st c).emitted = st.emitted := by
  unfold applyRole; split <;> rfl

theorem processChunkChoice_content (st : SSEState) (c : Choice) :
    (processChunkChoice st c).content = st.content ++ c.content := by
  unfold processChunkChoice
  rw [applyRole_content, applyToolCalls_content, applyContent_content]

theorem processChunkChoice_map (st : SSEState) (c : Choice) :
    (processChunkChoice st c).toolCallsMap = foldDeltas st.toolCallsMap c.toolCalls := by
  unfold processChunkChoice
  rw [applyRole_map, applyToolCalls_map, applyContent_map]

theorem processChunkChoice_emitted (st : SSEState) (c : Choice) :
    (processChunkChoice st c).emitted = st.emitted := by
  unfold processChunkChoice
  rw [applyRole_emitted, applyToolCalls_emitted, applyContent_emitted]

/-- The state produced by one successful decode step on a chunk whose
choice does not finish the stream. -/
def stepState (chunk : StreamChunk) (choice : Choice) (st : SSEState) : SSEState :=
  let st1 := metaCapture chunk st
  let st2 := processChunkChoice st1 choice
  { st2 with emitted := st2.emitted ++ [mkProgressMsg st2] }

theorem stepState_content (chunk : StreamChunk) (choice : Choice) (st : SSEState) :
    (stepState chunk choice st).content = st.content ++ choice.content := by
  show (processChunkChoice (metaCapture chunk st) choice).content = _
  rw [processChunkChoice_content, metaCapture_content]

theorem stepState_map (chunk : StreamChunk) (choice : Choice) (st : SSEState) :
    (stepState chunk choice st).toolCallsMap =
      foldDeltas st.toolCallsMap choice.toolCalls := by
  show (processChunkChoice (metaCapture chunk st) choice).toolCallsMap = _
  rw [processChunkChoice_map, metaCapture_map]

theorem stepState_emitted (chunk : StreamChunk) (choice : Choice) (st : SSEState) :
    (stepState chunk choice st).emitted =
      st.emitted ++ [mkProgressMsg (processChunkChoice (metaCapture chunk st) choice)] := by
  show (processChunkChoice (metaCapture chunk st) choice).emitted ++ _ = _
  rw [processChunkChoice_emitted, metaCapture_emitted]

theorem processDataChunk_eq_cont (cb : AIMessage → Bool) (chunk : StreamChunk)
    (st : SSEState) (choice : Choice) (tail : List Choice)
    (hch : chunk.choices = choice :: tail)
    (hcb : cb (mkProgressMsg (processChunkChoice (metaCapture chunk st) choice)) = true)
    (hfin : choice.finishReason = "") :
    processDataChunk cb chunk st = .cont (stepState chunk choice st) := by
  unfold processDataChunk
  rw [hch]
  simp only [stepState, hcb, if_true, hfin]
  rfl

theorem parseSSELoop_data_cont (cb : AIMessage → Bool) (chunk : StreamChunk)
    (st st' : SSEState) (rest : List SSELine)
    (h : processDataChunk cb chunk st = .cont st') :
    parseSSELoop cb (.dataLine (some chunk) :: rest) st = parseSSELoop cb rest st' := by
  simp [parseSSELoop, h]

theorem mkStream_cons (c : Choice) (cs : List Choice) :
    mkStream (c :: cs) = SSELine.dataLine (some (mkChunk c)) :: mkStream cs := by
  simp [mkStream]

/-- Characterisation of a full decode of a well-formed stream that keeps
running until the sentinel: the content buffer receives the concatenation
of all fragments and the slot map receives the fold of all deltas. -/
theorem parseSSELoop_mkStream (cs : List Choice) :
    ∀ st : SSEState, (∀ c ∈ cs, c.finishReason = "") →
      ∃ st', parseSSELoop cbAlwaysOk (mkStream cs) st = some st' ∧
        st'.content = st.content ++ strJoin (cs.map fun c => c.content) ∧
        st'.toolCallsMap = foldDeltas st.toolCallsMap (allDeltas cs) := by
  induction cs with
  | nil =>
    intro st _
    exact ⟨st, rfl, (String.append_empty _).symm, rfl⟩
  | cons c cs ih =>
    intro st hfin
    have hstep : processDataChunk cbAlwaysOk (mkChunk c) st = .cont (stepState (mkChunk c) c st) :=
      processDataChunk_eq_cont cbAlwaysOk (mkChunk c) st c [] rfl rfl
        (hfin c (List.mem_cons_self c cs))
    obtain ⟨st', hloop, hcont, hmap⟩ :=
      ih (stepState (mkChunk c) c st) (fun x hx => hfin x (List.mem_cons_of_mem c hx))
    refine ⟨st', ?_, ?_, ?_⟩
    · rw [mkStream_cons, parseSSELoop_data_cont cbAlwaysOk (mkChunk c) st _ (mkStream cs) hstep]
      exact hloop
    · rw [hcont, stepState_content, List.map_cons, String.append_assoc]
      rfl
    · rw [hmap, stepState_map, ← foldDeltas_append]
      rfl

/-! ## Claim theorems: streaming decoder -/

/-- Claim C2, amended: the streaming decoder applies no reasoning/plain
splitter; for every well-formed stream terminated by the sentinel, the
final message's content is the verbatim ordered concatenation of every
delta's content fragment, and its reasoning (think) field stays empty. -/
theorem stream_content_concat (cs : List Choice)
    (hfin : ∀ c ∈ cs, c.finishReason = "") :
    (parseSSEResponse cbAlwaysOk (mkStream cs)).map (fun m => (m.content, m.think)) =
      some (strJoin (cs.map fun c => c.content), "") := by
  obtain ⟨st', hloop, hcont, _⟩ := parseSSELoop_mkStream cs {} hfin
  have hc : st'.content = strJoin (cs.map fun c => c.content) := by
    rw [hcont]
    exact String.empty_append _
  simp [parseSSEResponse, hloop, finalizeSSE, hc]

theorem stream_content_concat_witness :
    (parseSSEResponse cbAlwaysOk
        (mkStream [{ content := "Hello" }, { content := " world" }])).map
        (fun m => (m.content, m.think)) = some ("Hello world", "") :=
  (stream_content_concat [{ content := "Hello" }, { content := " world" }]
    (by decide)).trans (by decide)

/-- Claim C4: for every well-formed stream and slot index, the slot's
accumulated tool call carries the id/type/name of the first delta
addressed to the slot and an argument buffer equal to the ordered
concatenation of every argument fragment addressed to that slot,
regardless of interleaving; the final message is assembled from exactly
this slot map. -/
theorem stream_toolcall_args_concat (cs : List Choice) (idx : Int)
    (d : DeltaToolCall)
    (hfin : ∀ c ∈ cs, c.finishReason = "")
    (hd : (allDeltas cs).find? (fun x => x.index == idx) = some d) :
    ∃ st, parseSSELoop cbAlwaysOk (mkStream cs) {} = some st ∧
      mapFind st.toolCallsMap idx =
        some { id := d.id, type := d.type, name := d.name,
               args := slotArgs (allDeltas cs) idx } ∧
      parseSSEResponse cbAlwaysOk (mkStream cs) = some (finalizeSSE st) := by
  obtain ⟨st, hloop, _, hmap⟩ := parseSSELoop_mkStream cs {} hfin
  refine ⟨st, hloop, ?_, by simp [parseSSEResponse, hloop]⟩
  rw [hmap, mapFind_foldDeltas_none (allDeltas cs) (({} : SSEState).toolCallsMap) idx rfl, hd]
  rfl

def c4Choice1 : Choice :=
  { toolCalls := [{ index := 0, id := "call_1", type := "function",
                    name := "f", args := "\x7b\"a\":1" }] }

def c4Choice2 : Choice :=
  { toolCalls := [{ index := 0, args := "\x7d" }] }

theorem stream_toolcall_args_concat_witness :
    ∃ st, parseSSELoop cbAlwaysOk (mkStream [c4Choice1, c4Choice2]) {} = some st ∧
      mapFind st.toolCallsMap 0 =
        some { id := "call_1", type := "function", name := "f",
               args := "\x7b\"a\":1\x7d" } ∧
      parseSSEResponse cbAlwaysOk (mkStream [c4Choice1, c4Choice2]) =
        some (finalizeSSE st) := by
  obtain ⟨st, h1, h2, h3⟩ := stream_toolcall_args_concat [c4Choice1, c4Choice2] 0
    { index := 0, id := "call_1", type := "function", name := "f", args := "\x7b\"a\":1" }
    (by decide) (by decide)
  exact ⟨st, h1, h2.trans (by decide), h3⟩

theorem parseSSELoop_skip_malformed (cb : AIMessage → Bool)
    (pre post : List SSELine) :
    ∀ st, parseSSELoop cb (pre ++ SSELine.dataLine none :: post) st =
      parseSSELoop cb (pre ++ post) st := by
  induction pre with
  | nil =>
    intro st
    simp [parseSSELoop]
  | cons l pre ih =>
    intro st
    cases l with
    | blank =>
      simp only [List.cons_append, parseSSELoop]
      exact ih st
    | nonData =>
      simp only [List.cons_append, parseSSELoop]
      exact ih st
    | done => simp [parseSSELoop]
    | dataLine oc =>
      cases oc with
      | none =>
        simp only [List.cons_append, parseSSELoop]
        exact ih st
      | some chunk =>
        simp only [List.cons_append, parseSSELoop]
        cases h : processDataChunk cb chunk st with
        | cont st2 =>
          simp only [h]
          exact ih st2
        | stop res => simp only [h]

/-- Claim C7: a data payload that fails JSON decoding is skipped: deleting
it from the line sequence leaves the decode result (final message,
including early-return behaviour) unchanged, so it neither aborts the
stream nor contributes to the output. -/
theorem malformed_chunk_skipped (cb : AIMessage → Bool) (pre post : List SSELine) :
    parseSSEResponse cb (pre ++ SSELine.dataLine none :: post) =
      parseSSEResponse cb (pre ++ post) := by
  unfold parseSSEResponse
  rw [parseSSELoop_skip_malformed]

/-! ## Progress-message invariant (claim C1) -/

/-- Every message handed to the chunk callback so far carries the content
accumulated up to its emission: its content is an initial segment of the
current content buffer. -/
def progressInv (st : SSEState) : Prop :=
  ∀ p ∈ st.emitted, ∃ t, st.content = p.content ++ t

theorem progressInv_metaCapture (chunk : StreamChunk) (st : SSEState)
    (h : progressInv st) : progressInv (metaCapture chunk st) := by
  intro p hp
  rw [metaCapture_emitted] at hp
  rw [metaCapture_content]
  exact h p hp

theorem progressInv_processChunkChoice (st : SSEState) (c : Choice)
    (h : progressInv st) : progressInv (processChunkChoice st c) := by
  intro p hp
  rw [processChunkChoice_emitted] at hp
  obtain ⟨t, ht⟩ := h p hp
  exact ⟨t ++ c.content, by rw [processChunkChoice_content, ht, String.append_assoc]⟩

theorem progressInv_emit (st : SSEState) (h : progressInv st) :
    progressInv { st with emitted := st.emitted ++ [mkProgressMsg st] } := by
  intro p hp
  simp only [List.mem_append, List.mem_singleton] at hp
  rcases hp with hp | rfl
  · exact h p hp
  · exact ⟨"", (String.append_empty _).symm⟩

theorem progressInv_processDataChunk (cb : AIMessage → Bool) (chunk : StreamChunk)
    (st : SSEState) (h : progressInv st) :
    (∀ st', processDataChunk cb chunk st = .cont st' → progressInv st') ∧
    (∀ st', processDataChunk cb chunk st = .stop (some st') → progressInv st') := by
  have hm := progressInv_metaCapture chunk st h
  unfold processDataChunk
  cases hch : chunk.choices with
  | nil =>
    constructor
    · intro st' he
      simp only [hch] at he
      cases he
      exact hm
    · intro st' he
      simp only [hch] at he
      cases he
  | cons choice tail =>
    have h3 := progressInv_emit _ (progressInv_processChunkChoice (metaCapture chunk st) choice hm)
    constructor
    · intro st' he
      simp only [hch] at he
      split at he
      · split at he
        · cases he
          exact h3
        · cases he
      · cases he
    · intro st' he
      simp only [hch] at he
      split at he
      · split at he
        · cases he
        · cases he
          exact h3
      · cases he

theorem progressInv_parseSSELoop (cb : AIMessage → Bool) :
    ∀ (lines : List SSELine) (st st' : SSEState),
      parseSSELoop cb lines st = some st' → progressInv st → progressInv st' := by
  intro lines
  induction lines with
  | nil =>
    intro st st' h hi
    cases h
    exact hi
  | cons l rest ih =>
    intro st st' h hi
    cases l with
    | blank => exact ih st st' (by simpa [parseSSELoop] using h) hi
    | nonData => exact ih st st' (by simpa [parseSSELoop] using h) hi
    | done =>
      simp only [parseSSELoop, Option.some_inj] at h
      rw [← h]
      exact hi
    | dataLine oc =>
      cases oc with
      | none => exact ih st st' (by simpa [parseSSELoop] using h) hi
      | some chunk =>
        simp only [parseSSELoop] at h
        cases hpc : processDataChunk cb chunk st with
        | cont st2 =>
          rw [hpc] at h
          exact ih st2 st' h ((progressInv_processDataChunk cb chunk st hi).1 st2 hpc)
        | stop res =>
          rw [hpc] at h
          cases res with
          | none => cases h
          | some s2 =>
            have hs := (progressInv_processDataChunk cb chunk st hi).2 s2 hpc
            cases h
            exact hs

/-- Claim C1, amended: the chunk callback is invoked with the accumulation,
not with the new fragment alone: every message passed to the callback has
content that is an initial segment of the final content (each emission
carries all text accumulated so far, of which the chunk's new fragment is
only the tail), and the final message is assembled from the same state.
The counterexample additionally shows the callback messages carry the
accumulated tool calls. -/
theorem progress_messages_carry_accumulation (cb : AIMessage → Bool)
    (lines : List SSELine) (st : SSEState)
    (h : parseSSELoop cb lines {} = some st)
    (p : AIMessage) (hp : p ∈ st.emitted) :
    (∃ t, st.content = p.content ++ t) ∧
      parseSSEResponse cb lines = some (finalizeSSE st) := by
  refine ⟨?_, by simp [parseSSEResponse, h]⟩
  have hinit : progressInv ({} : SSEState) := by
    intro q hq
    exact absurd hq (List.not_mem_nil q)
  exact progressInv_parseSSELoop cb lines {} st h hinit p hp

def c1Lines : List SSELine :=
  mkStream [{ content := "Hello" }, { content := " world" }]

def c1ProgressA : AIMessage := { content := "Hello" }

def c1ProgressB : AIMessage := { content := "Hello world" }

def c1EndState : SSEState :=
  { content := "Hello world", responseID := "resp-1", responseCreated := 1,
    responseModel := "m", emitted := [c1ProgressA, c1ProgressB] }

theorem progress_messages_carry_accumulation_witness :
    (∃ t, c1EndState.content = c1ProgressA.content ++ t) ∧
      parseSSEResponse cbAlwaysOk c1Lines = some (finalizeSSE c1EndState) :=
  progress_messages_carry_accumulation cbAlwaysOk c1Lines c1EndState (by decide)
    c1ProgressA (by decide)

def c1xLines : List SSELine :=
  mkStream
    [{ toolCalls := [{ index := 0, id := "call_1", type := "function",
                       name := "f", args := "A" }] },
     { content := "Hello" }, { content := " world" }]

/-- Claim C1, counterexample: on this stream the third chunk's new text
fragment is " world", yet the third callback message carries the full
accumulation "Hello world", and every callback message carries the
accumulated tool call (length 1), refuting both "only the new text
fragment" and "carries no tool calls". -/
theorem progress_messages_counterexample :
    (parseSSELoop cbAlwaysOk c1xLines {}).map
        (fun st => st.emitted.map fun p => (p.content, p.toolCalls.length)) =
      some [("", 1), ("Hello", 1), ("Hello world", 1)] ∧
    (" world" : String) ≠ "Hello world" :=
  ⟨by decide, by decide⟩

/-! ## Slot-map-to-list conversion (claim C3) -/

/-- A slot map whose keys are exactly n, n+1, ... in list order. -/
def contiguousMapFrom : Int → List ToolCall → List (Int × ToolCall)
  | _, [] => []
  | n, tc :: rest => (n, tc) :: contiguousMapFrom (n + 1) rest

/-- A slot map with contiguous zero-based keys. -/
def contiguousMap (tcs : List ToolCall) : List (Int × ToolCall) :=
  contiguousMapFrom 0 tcs

theorem contiguousMapFrom_length (tcs : List ToolCall) :
    ∀ n : Int, (contiguousMapFrom n tcs).length = tcs.length := by
  induction tcs with
  | nil => intro n; rfl
  | cons tc rest ih =>
    intro n
    show (contiguousMapFrom (n + 1) rest).length + 1 = rest.length + 1
    rw [ih]

theorem mapFind_contiguousMapFrom (tcs : List ToolCall) :
    ∀ (n : Int) (i : ℕ),
      mapFind (contiguousMapFrom n tcs) (n + (i : Int)) = tcs.get? i := by
  induction tcs with
  | nil => intro n i; rfl
  | cons tc rest ih =>
    intro n i
    cases i with
    | zero =>
      show mapFind ((n, tc) :: contiguousMapFrom (n + 1) rest) (n + 0) = some tc
      simp [mapFind]
    | succ j =>
      show mapFind ((n, tc) :: contiguousMapFrom (n + 1) rest) (n + ((j + 1 : ℕ) : Int)) =
        rest.get? j
      simp only [mapFind, beq_iff_eq]
      rw [if_neg (by push_cast; omega)]
      have hk : n + ((j + 1 : ℕ) : Int) = (n + 1) + (j : Int) := by push_cast; ring
      rw [hk]
      exact ih (n + 1) j

theorem filterMap_range_get {α : Type} (l : List α) :
    (List.range l.length).filterMap (fun i => l.get? i) = l := by
  induction l with
  | nil => rfl
  | cons a l ih =>
    rw [show (a :: l).length = l.length + 1 from rfl, List.range_succ_eq_map,
      List.filterMap_cons, List.filterMap_map]
    show a :: List.filterMap ((fun i => (a :: l).get? i) ∘ (· + 1)) (List.range l.length) = a :: l
    have hfun : ((fun i => (a :: l).get? i) ∘ (· + 1)) = fun i : ℕ => l.get? i := rfl
    rw [hfun, ih]

/-- Claim C3, amended: the conversion probes only indices 0 .. count-1, so
when the slot indices are exactly 0 .. count-1 (contiguous from zero, the
shape the vendor emits) it yields every slot exactly once, in ascending
slot-index order; a slot whose index falls outside that range is silently
dropped (counterexample). -/
theorem slot_map_conversion_contiguous (tcs : List ToolCall) :
    toolCallsSlice (contiguousMap tcs) = tcs := by
  unfold toolCallsSlice contiguousMap
  rw [contiguousMapFrom_length tcs 0]
  have hfun : (fun i : ℕ => mapFind (contiguousMapFrom 0 tcs) (Int.ofNat i)) =
      fun i : ℕ => tcs.get? i := by
    funext i
    have := mapFind_contiguousMapFrom tcs 0 i
    rw [Int.zero_add] at this
    exact this
  rw [hfun, filterMap_range_get]

def c3Lines : List SSELine :=
  mkStream [{ toolCalls := [{ index := 1, id := "call_9", type := "function",
                              name := "g", args := "A" }] }]

def c3EndState : SSEState :=
  { toolCallsMap := [(1, { id := "call_9", type := "function", name := "g", args := "A" })],
    responseID := "resp-1", responseCreated := 1, responseModel := "m",
    emitted := [{}] }

/-- Claim C3, counterexample: a stream whose only tool call sits at slot
index 1 ends with that slot accumulated in the map, yet the conversion to
the final message's tool-call list emits nothing: the slot is dropped,
refuting "emits every accumulated slot ... dropping none" for slot sets
that do not start at zero. -/
theorem slot_map_conversion_counterexample :
    parseSSELoop cbAlwaysOk c3Lines {} = some c3EndState ∧
    mapFind c3EndState.toolCallsMap 1 =
      some { id := "call_9", type := "function", name := "g", args := "A" } ∧
    toolCallsSlice c3EndState.toolCallsMap = [] ∧
    (parseSSEResponse cbAlwaysOk c3Lines).map (fun m => m.toolCalls) = some [] :=
  ⟨by decide, by decide, by decide, by decide⟩

/-! ## Reasoning/plain splitter (claim C2) -/

/-- Splits a character list at the first occurrence of a marker, returning
the text before the marker and the text after it. -/
def splitAtMarker (marker : List Char) : List Char → Option (List Char × List Char)
  | [] => if marker.isEmpty then some ([], []) else none
  | c :: rest =>
    if listStartsWith (c :: rest) marker then some ([], (c :: rest).drop marker.length)
    else
      match splitAtMarker marker rest with
      | none => none
      | some (a, b) => some (c :: a, b)

/-- Modelled from the spec: the reasoning/plain-text splitter that
separates an embedded reasoning span (delimited by think markers) from
ordinary text (section 4.3 "Content accumulation"); the splitter itself
lives in the separate ai package (ai.ExtractThinkTags), outside this
repository's source.  Returns (plain text, reasoning text). -/
def specSplitThink (s : String) : String × String :=
  match splitAtMarker "<think>".toList s.toList with
  | none => (s, "")
  | some (before, rest) =>
    match splitAtMarker "</think>".toList rest with
    | none => (s, "")
    | some (mid, post) => (String.mk (before ++ post), String.mk mid)

def c2xLines : List SSELine :=
  mkStream [{ content := "<think>r</think>x" }]

/-- Claim C2, counterexample: on a stream whose single content fragment
embeds a reasoning span, the claim predicts a final reasoning buffer "r"
and plain text "x" (the splitter's outputs), but the decoder performs no
splitting: the final message keeps the fragment verbatim as content and
its reasoning field is empty. -/
theorem stream_think_split_counterexample :
    (parseSSEResponse cbAlwaysOk c2xLines).map (fun m => (m.content, m.think)) =
      some ("<think>r</think>x", "") ∧
    specSplitThink "<think>r</think>x" = ("x", "r") ∧
    ("" : String) ≠ "r" :=
  ⟨by decide, by decide, by decide⟩

/-! ## Request building and wire serialization (claim C9)

ai.Model's optional generation parameters are pointer fields; a `none`
embeds a nil pointer (parameter never set by the caller).  Go float64
values are embedded as ℚ.  The `messages` and `tools` fields of
OpenAIChatRequest are carried verbatim from the translator and are
orthogonal to the optional-parameter claim, so they are not repeated
here. -/

structure ModelConfig where
  temperature : Option ℚ := none
  maxTokens : Option Int := none
  topP : Option ℚ := none
  frequencyPenalty : Option ℚ := none
  presencePenalty : Option ℚ := none
  stopSequences : Option (List String) := none

/-- OpenAIChatRequest (openai.go lines 23-34): every optional field is a
plain value whose zero value means "omitted" under its omitempty JSON
tag. -/
structure OpenAIChatRequest where
  model : String := ""
  temperature : ℚ := 0
  maxTokens : Int := 0
  topP : ℚ := 0
  frequencyPenalty : ℚ := 0
  presencePenalty : ℚ := 0
  stop : List String := []
  stream : Bool := false

/-- openai.go lines 360-385: copy each explicitly set (non-nil) model
parameter into the request struct. -/
def buildChatRequest (m : ModelConfig) (modelName : String) : OpenAIChatRequest :=
  let req : OpenAIChatRequest := { model := modelName }
  let req := match m.temperature with
    | some v => { req with temperature := v }
    | none => req
  let req := match m.maxTokens with
    | some v => { req with maxTokens := v }
    | none => req
  let req := match m.topP with
    | some v => { req with topP := v }
    | none => req
  let req := match m.frequencyPenalty with
    | some v => { req with frequencyPenalty := v }
    | none => req
  let req := match m.presencePenalty with
    | some v => { req with presencePenalty := v }
    | none => req
  match m.stopSequences with
  | some v => { req with stop := v }
  | none => req

/-- encoding/json omitempty semantics for the request struct: a field is
present in the serialized payload iff its value is not the zero value of
its type (empty list for the stop slice, false for the stream flag);
model and messages carry no omitempty tag and are always present. -/
def fieldEmitted (r : OpenAIChatRequest) : String → Bool
  | "model" => true
  | "messages" => true
  | "temperature" => !(r.temperature == 0)
  | "max_tokens" => !(r.maxTokens == 0)
  | "top_p" => !(r.topP == 0)
  | "frequency_penalty" => !(r.frequencyPenalty == 0)
  | "presence_penalty" => !(r.presencePenalty == 0)
  | "stop" => !r.stop.isEmpty
  | "stream" => r.stream
  | _ => false

theorem buildChatRequest_temperature (m : ModelConfig) (modelName : String) :
    (buildChatRequest m modelName).temperature = m.temperature.getD 0 := by
  obtain ⟨t, mt, tp, fp, pp, ss⟩ := m
  cases t <;> cases mt <;> cases tp <;> cases fp <;> cases pp <;> cases ss <;> rfl

theorem buildChatRequest_maxTokens (m : ModelConfig) (modelName : String) :
    (buildChatRequest m modelName).maxTokens = m.maxTokens.getD 0 := by
  obtain ⟨t, mt, tp, fp, pp, ss⟩ := m
  cases t <;> cases mt <;> cases tp <;> cases fp <;> cases pp <;> cases ss <;> rfl

theorem buildChatRequest_topP (m : ModelConfig) (modelName : String) :
    (buildChatRequest m modelName).topP = m.topP.getD 0 := by
  obtain ⟨t, mt, tp, fp, pp, ss⟩ := m
  cases t <;> cases mt <;> cases tp <;> cases fp <;> cases pp <;> cases ss <;> rfl

theorem buildChatRequest_frequencyPenalty (m : ModelConfig) (modelName : String) :
    (buildChatRequest m modelName).frequencyPenalty = m.frequencyPenalty.getD 0 := by
  obtain ⟨t, mt, tp, fp, pp, ss⟩ := m
  cases t <;> cases mt <;> cases tp <;> cases fp <;> cases pp <;> cases ss <;> rfl

theorem buildChatRequest_presencePenalty (m : ModelConfig) (modelName : String) :
    (buildChatRequest m modelName).presencePenalty = m.presencePenalty.getD 0 := by
  obtain ⟨t, mt, tp, fp, pp, ss⟩ := m
  cases t <;> cases mt <;> cases tp <;> cases fp <;> cases pp <;> cases ss <;> rfl

theorem buildChatRequest_stop (m : ModelConfig) (modelName : String) :
    (buildChatRequest m modelName).stop = m.stopSequences.getD [] := by
  obtain ⟨t, mt, tp, fp, pp, ss⟩ := m
  cases t <;> cases mt <;> cases tp <;> cases fp <;> cases pp <;> cases ss <;> rfl

theorem fieldEmitted_temperature (r : OpenAIChatRequest) :
    fieldEmitted r "temperature" = !(r.temperature == 0) := rfl

theorem fieldEmitted_maxTokens (r : OpenAIChatRequest) :
    fieldEmitted r "max_tokens" = !(r.maxTokens == 0) := rfl

theorem fieldEmitted_topP (r : OpenAIChatRequest) :
    fieldEmitted r "top_p" = !(r.topP == 0) := rfl

theorem fieldEmitted_frequencyPenalty (r : OpenAIChatRequest) :
    fieldEmitted r "frequency_penalty" = !(r.frequencyPenalty == 0) := rfl

theorem fieldEmitted_presencePenalty (r : OpenAIChatRequest) :
    fieldEmitted r "presence_penalty" = !(r.presencePenalty == 0) := rfl

theorem fieldEmitted_stop (r : OpenAIChatRequest) :
    fieldEmitted r "stop" = !r.stop.isEmpty := rfl

/-- Claim C9, amended: an optional generation parameter appears on the
wire iff the caller set it to a value other than its type's zero value;
unset parameters are absent as claimed, but a parameter explicitly set to
zero (or to an empty stop list) is also serialized absent, not present. -/
theorem optional_params_on_wire (m : ModelConfig) (modelName : String) :
    (fieldEmitted (buildChatRequest m modelName) "temperature" = true ↔
      ∃ v, m.temperature = some v ∧ v ≠ 0) ∧
    (fieldEmitted (buildChatRequest m modelName) "max_tokens" = true ↔
      ∃ v, m.maxTokens = some v ∧ v ≠ 0) ∧
    (fieldEmitted (buildChatRequest m modelName) "top_p" = true ↔
      ∃ v, m.topP = some v ∧ v ≠ 0) ∧
    (fieldEmitted (buildChatRequest m modelName) "frequency_penalty" = true ↔
      ∃ v, m.frequencyPenalty = some v ∧ v ≠ 0) ∧
    (fieldEmitted (buildChatRequest m modelName) "presence_penalty" = true ↔
      ∃ v, m.presencePenalty = some v ∧ v ≠ 0) ∧
    (fieldEmitted (buildChatRequest m modelName) "stop" = true ↔
      ∃ v, m.stopSequences = some v ∧ v ≠ []) := by
  refine ⟨?_, ?_, ?_, ?_, ?_, ?_⟩
  · rw [fieldEmitted_temperature, buildChatRequest_temperature]
    cases h : m.temperature <;> simp
  · rw [fieldEmitted_maxTokens, buildChatRequest_maxTokens]
    cases h : m.maxTokens <;> simp
  · rw [fieldEmitted_topP, buildChatRequest_topP]
    cases h : m.topP <;> simp
  · rw [fieldEmitted_frequencyPenalty, buildChatRequest_frequencyPenalty]
    cases h : m.frequencyPenalty <;> simp
  · rw [fieldEmitted_presencePenalty, buildChatRequest_presencePenalty]
    cases h : m.presencePenalty <;> simp
  · rw [fieldEmitted_stop, buildChatRequest_stop]
    cases h : m.stopSequences <;> simp [List.isEmpty_iff]

/-- Claim C9, counterexample: a temperature explicitly set to zero is
absent from the serialized payload (omitempty drops the zero value), and
likewise an explicitly set empty stop list, refuting "an explicitly set
value - including zero - is present"; a set non-zero value and a fully
unset parameter behave as claimed. -/
theorem optional_params_zero_dropped_counterexample :
    fieldEmitted (buildChatRequest { temperature := some 0 } "gpt-4o") "temperature" = false ∧
    fieldEmitted (buildChatRequest { stopSequences := some [] } "gpt-4o") "stop" = false ∧
    fieldEmitted (buildChatRequest { temperature := some (7 / 10) } "gpt-4o") "temperature" = true ∧
    fieldEmitted (buildChatRequest {} "gpt-4o") "temperature" = false := by
  refine ⟨?_, ?_, ?_, ?_⟩
  · rw [fieldEmitted_temperature, buildChatRequest_temperature]
    simp
  · rw [fieldEmitted_stop, buildChatRequest_stop]
    simp
  · rw [fieldEmitted_temperature, buildChatRequest_temperature]
    simp only [Option.getD_some]
    norm_num
  · rw [fieldEmitted_temperature, buildChatRequest_temperature]
    simp

end AigenticOpenAI
